import Mathlib

/-!
Verification of the EditTogether real-time collaboration core.

The development shallowly embeds the three source units:

* the broadcast relay server (WebSocket server with a room map,
  per-connection message fan-out and close-time cleanup);
* the collaborative editor client (the edit-submission pipeline
  `handleSubmitChange`, the bounded recent-changes store and the
  session teardown callbacks returned by the two effects);
* the login form (`handleSubmit` in the Login component).

JS strings are embedded as `List Char` where string algorithms matter
(split, trim, decimal rendering) and as `String` where only equality is
used.  Machine integers stay in `Nat`: every number involved (ready
states, timestamps) is a small non-negative integer in the source.
-/

namespace JsStr

/-- Whitespace test used by the embedding of JS string trimming.  The JS
trim whitespace class (WhiteSpace plus LineTerminator code points) is
abstracted by the character whitespace predicate. -/
def isWs (c : Char) : Bool := c.isWhitespace

/-- Embedding of JS String.prototype.trim on character lists: remove
leading and trailing whitespace. -/
def jsTrim (l : List Char) : List Char :=
  ((l.dropWhile isWs).reverse.dropWhile isWs).reverse

end JsStr

namespace Relay

/-- A socket connection as the relay sees it: an identity (standing for
JS object identity of the ws object) together with the readyState the
socket has at the moment the relay inspects it. -/
structure Conn where
  cid : Nat
  readyState : Nat
deriving DecidableEq, Repr

/-- The ws OPEN ready-state constant (WebSocket.OPEN = 1). -/
def OPEN : Nat := 1

/-- An opaque frame payload, kept byte-for-byte. -/
abbrev Msg := List Nat

/-- Observable relay-side socket effects emitted while a handler runs. -/
inductive Action where
  | send (target : Conn) (payload : Msg)
  | close (target : Conn)
deriving DecidableEq, Repr

/-- Embedding of the message handler: for each client of the room, if
the client is not the sender and its readyState equals OPEN, the relay
sends it the received message unchanged.  The source iterates the room
set with forEach and performs exactly this guarded send; it emits no
other socket effect. -/
def broadcast (room : List Conn) (ws : Conn) (message : Msg) : List Action :=
  room.filterMap (fun client =>
    if client ≠ ws ∧ client.readyState = OPEN then some (Action.send client message)
    else none)

/-- Recipients that actually receive a frame when the sends to the
recipients marked by fail are lost.  In the ws library a send on an OPEN
socket reports failure through its callback or the error event and does
not throw synchronously, so a lost send cannot alter the control flow of
the forEach loop; the oracle fail records which attempted sends are
lost on the wire. -/
def delivered (fail : Conn → Bool) (room : List Conn) (ws : Conn) (message : Msg) :
    List Conn :=
  (broadcast room ws message).filterMap (fun a =>
    match a with
    | Action.send c _ => if fail c then none else some c
    | Action.close _ => none)

/-- Test for a close effect among the actions of a handler run. -/
def isClose : Action → Bool
  | Action.close _ => true
  | Action.send _ _ => false

/-- Embedding of JS String.prototype.split with the slash character as
separator: splitting the empty string yields one empty piece, and each
separator occurrence starts a new piece. -/
def splitSlash : List Char → List (List Char)
  | [] => [[]]
  | c :: cs =>
    if c = '/' then [] :: splitSlash cs
    else
      match splitSlash cs with
      | [] => [[c]]
      | p :: ps => (c :: p) :: ps

/-- The fixed default room id of the relay. -/
def defaultRoom : List Char := "default-room".data

/-- Embedding of the room-name resolution: index 1 of the split of the
request URL on slashes, falling back to the default room id when that
index is absent or holds the empty string (both are falsy in JS). -/
def roomNameOf (url : List Char) : List Char :=
  match (splitSlash url).get? 1 with
  | none => defaultRoom
  | some seg => if seg = [] then defaultRoom else seg

/-- Room-name resolution as the specification words it: the path segment
after the leading slash of the request URL, with the default room id
when that segment is empty or absent. -/
def specRoomName (url : List Char) : List Char :=
  match url with
  | '/' :: rest =>
    let seg := rest.takeWhile (fun c => c ≠ '/')
    if seg = [] then defaultRoom else seg
  | _ => defaultRoom

/-- A room identifier. -/
abbrev RoomId := List Char

/-- The room registry: the rooms map from room name to its member set.
The JS Map and Set are embedded as association and member lists in
insertion order; the source never stores a member twice (Set add is a
no-op on a present element). -/
abbrev Registry := List (RoomId × List Conn)

/-- Lookup of the member set of a room, embedding rooms.get. -/
def lookupRoom : Registry → RoomId → Option (List Conn)
  | [], _ => none
  | (r, m) :: rest, rid => if r = rid then some m else lookupRoom rest rid

/-- Embedding of rooms.has. -/
def hasRoom (reg : Registry) (rid : RoomId) : Bool :=
  (lookupRoom reg rid).isSome

/-- Room initialization on connection: when the rooms map has no entry
for the room name, set it to a new empty set (a JS Map set of a fresh
key appends it in insertion order). -/
def ensureRoom (reg : Registry) (rid : RoomId) : Registry :=
  if hasRoom reg rid then reg else reg ++ [(rid, [])]

/-- Embedding of adding the connection to the member set of its room
(Set add: a no-op when the element is present, else appended). -/
def addToRoom : Registry → RoomId → Conn → Registry
  | [], _, _ => []
  | (r, m) :: rest, rid, ws =>
    if r = rid then (r, if ws ∈ m then m else m ++ [ws]) :: rest
    else (r, m) :: addToRoom rest rid ws

/-- The connection-handler steps that touch the registry: initialize the
room if absent, then add the client to it. -/
def join (reg : Registry) (rid : RoomId) (ws : Conn) : Registry :=
  addToRoom (ensureRoom reg rid) rid ws

/-- Embedding of the close handler: delete the connection from the
member set of the room it joined, and when the set becomes empty delete
the room entry itself from the rooms map. -/
def leave : Registry → RoomId → Conn → Registry
  | [], _, _ => []
  | (r, m) :: rest, rid, ws =>
    if r = rid then
      (if m.erase ws = [] then rest else (r, m.erase ws) :: rest)
    else (r, m) :: leave rest rid ws

/-- A registry event: a connection joining or leaving a room. -/
inductive Event where
  | join (rid : RoomId) (ws : Conn)
  | leave (rid : RoomId) (ws : Conn)

/-- One registry transition. -/
def step (reg : Registry) : Event → Registry
  | Event.join rid ws => join reg rid ws
  | Event.leave rid ws => leave reg rid ws

/-- The registry reached from the empty initial map after a sequence of
join and leave events. -/
def run (evs : List Event) : Registry := evs.foldl step []

/-- A registry has no empty room when every stored room entry carries a
non-empty member set. -/
def NoEmpty (reg : Registry) : Prop := ∀ p ∈ reg, p.2 ≠ []

/-- A registry is keyed uniquely when no two entries share a room id;
the rooms map of the source has this shape by construction. -/
def UniqKeys (reg : Registry) : Prop := (reg.map Prod.fst).Nodup

end Relay

namespace Client

/-- The Change record of the client: id, user, userColor, content and
acceptance timestamp.  The JS Date timestamp is embedded as the
millisecond count it wraps. -/
structure Change where
  id : String
  user : String
  userColor : String
  content : String
  timestamp : Nat
deriving DecidableEq, Repr

/-- The editing surface document, abstracted to its block structure: a
list of blocks each carrying its plain text.  The plain-text content of
the document concatenates the text of its blocks. -/
structure Doc where
  blocks : List String
deriving DecidableEq, Repr

/-- Plain-text content of a document, embedding doc.textContent. -/
def Doc.textContent (d : Doc) : String :=
  String.join d.blocks

/-- The empty document built before clearing: a doc node holding a
single empty paragraph. -/
def emptyDoc : Doc := ⟨[""]⟩

/-- The payload placed on the awareness lastChange field on submission:
id, user, timestamp and content of the accepted change. -/
structure AwarenessChange where
  id : String
  user : String
  timestamp : Nat
  content : String
deriving DecidableEq, Repr

/-- Local state of the collaborative editor component: the participant
identity, the connection flag, the recent-changes list, the
content-tracking flag, the confirmation indicator, the editor view with
its current document (none while the view is not initialized) and the
local awareness lastChange field. -/
structure ClientState where
  username : String
  userColor : String
  isConnected : Bool
  changes : List Change
  hasContent : Bool
  showConfirmation : Bool
  view : Option Doc
  lastChange : Option AwarenessChange
deriving DecidableEq, Repr

/-- Embedding of the recent-changes store update: the setChanges updater
prepends the new change and slices to the first 10 entries. -/
def record (c : Change) (prev : List Change) : List Change :=
  (c :: prev).take 10

/-- Embedding of the store read: the changes list is handed as is to the
history panel, which renders it in order, newest first. -/
def allChanges (store : List Change) : List Change := store

/-- Decimal digit characters of a natural number, most significant
first, by repeated division: the numeral JS Number toString produces in
base 10 for a non-negative integer.  The first argument is fuel that
makes the recursion structural; the number itself always suffices. -/
def decCharsAux : Nat → Nat → List Char
  | 0, _ => []
  | fuel + 1, n =>
    if n = 0 then []
    else decCharsAux fuel (n / 10) ++ [Nat.digitChar (n % 10)]

/-- Decimal numeral of a natural number as a character list. -/
def decChars (n : Nat) : List Char :=
  if n = 0 then ['0'] else decCharsAux n n

/-- Embedding of Date.now().toString(): the decimal numeral of the
current millisecond timestamp. -/
def jsNatToString (n : Nat) : String := String.mk (decChars n)

/-- Content test used by the client: a string is non-blank when its
trimmed form is non-empty, which is how dispatchTransaction computes the
hasContent flag from the document text after every transaction. -/
def nonBlank (s : String) : Bool := !(JsStr.jsTrim s.data).isEmpty

/-- A client state tracks content when its hasContent flag agrees with
the blankness of the current document text, the invariant that
dispatchTransaction maintains by recomputing the flag on every
transaction. -/
def TracksContent (s : ClientState) : Prop :=
  ∀ d, s.view = some d → s.hasContent = nonBlank d.textContent

/-- The Change object a submit builds: the id is the decimal rendering
of the current millisecond timestamp, the author identity is the local
participant, the content is the plain text read from the editor and the
timestamp is the same clock reading. -/
def submittedChange (now : Nat) (s : ClientState) (content : String) : Change :=
  { id := jsNatToString now
    user := s.username
    userColor := s.userColor
    content := content
    timestamp := now }

/-- The announcement placed on the awareness lastChange field: id, user,
timestamp and content taken from the freshly built change. -/
def announcedChange (now : Nat) (s : ClientState) (content : String) : AwarenessChange :=
  let c := submittedChange now s content
  { id := c.id
    user := s.username
    timestamp := c.timestamp
    content := c.content }

/-- Embedding of handleSubmitChange at clock reading now (the source
reads the clock twice, for the id and for the timestamp, within the same
handler run; both reads are embedded at the same instant).  Guards: a
missing view or a cleared hasContent flag returns unchanged; then a
blank trimmed content returns unchanged; otherwise a Change is built,
the store update prepends and truncates, the editor document is replaced
by the single empty paragraph, hasContent is cleared, the confirmation
indicator is shown, and the lastChange awareness field announces the
change.  No step of this path throws; the surrounding try-catch of the
source never fires on it. -/
def handleSubmitChange (now : Nat) (s : ClientState) : ClientState :=
  match s.view with
  | none => s
  | some d =>
    if !s.hasContent then s
    else
      let content := d.textContent
      if JsStr.jsTrim content.data = [] then s
      else
        { s with
          changes := record (submittedChange now s content) s.changes
          view := some emptyDoc
          hasContent := false
          showConfirmation := true
          lastChange := some (announcedChange now s content) }

/-- A numbered change used to exercise the store: id and timestamp
derived from the number. -/
def mkNumberedChange (i : Nat) : Change :=
  { id := jsNatToString i
    user := "user"
    userColor := "#123456"
    content := "text"
    timestamp := i }

/-- A session state whose editor holds the text Hello world, as composed
right before a submission. -/
def helloState : ClientState :=
  { username := "alice"
    userColor := "#ff0000"
    isConnected := true
    changes := []
    hasContent := true
    showConfirmation := false
    view := some ⟨["Hello world"]⟩
    lastChange := none }

/-- The state after submitting helloState and then composing new text,
ready for a second submission within the same session. -/
def helloState2 : ClientState :=
  { handleSubmitChange 1000 helloState with
    view := some ⟨["Hello again"]⟩
    hasContent := true }

/-- A session state whose editor surface is blank: the view holds the
single empty paragraph and the content flag is cleared. -/
def blankState : ClientState :=
  { username := "bob"
    userColor := "#00ff00"
    isConnected := false
    changes := []
    hasContent := false
    showConfirmation := false
    view := some ⟨[""]⟩
    lastChange := none }

end Client

namespace Session

/-- Teardown effects observable on the session resources: destroying
the editor view, removing the status listener, destroying the socket
provider (the transport release). -/
inductive TAction where
  | destroyView
  | offStatus
  | destroyProvider
deriving DecidableEq, Repr

/-- Resource state of a connection session: whether the stable view
reference still holds a view and whether the provider ref still holds
the socket provider. -/
structure SessionState where
  currentView : Bool
  provider : Bool
deriving DecidableEq, Repr

/-- Embedding of the status-effect cleanup: optional chaining removes
the status listener and destroys the provider when the provider ref is
set; the ref is not cleared. -/
def statusCleanup (s : SessionState) : SessionState × List TAction :=
  if s.provider then (s, [TAction.offStatus, TAction.destroyProvider])
  else (s, [])

/-- Embedding of the editor-effect cleanup: destroy the view and null
the stable view reference when it is set, then destroy the provider and
clear the provider ref when it is set. -/
def editorCleanup (s : SessionState) : SessionState × List TAction :=
  let va :=
    if s.currentView then ({ s with currentView := false }, [TAction.destroyView])
    else (s, [])
  let pa :=
    if va.1.provider then ({ va.1 with provider := false }, [TAction.destroyProvider])
    else (va.1, [])
  (pa.1, va.2 ++ pa.2)

/-- Full session teardown at unmount: the cleanup of the status effect
runs, then the cleanup of the editor effect, in the order the effects
are defined. -/
def teardown (s : SessionState) : SessionState × List TAction :=
  let sa := statusCleanup s
  let ea := editorCleanup sa.1
  (ea.1, sa.2 ++ ea.2)

end Session

namespace LoginForm

/-- Embedding of the login submit handler: when the trimmed entered name
is non-empty (a truthy string), the login callback is invoked with the
trimmed name, returned as some; otherwise nothing happens, returned as
none. -/
def loginSubmit (username : List Char) : Option (List Char) :=
  let t := JsStr.jsTrim username
  if t = [] then none else some t

end LoginForm

section BroadcastLemmas

/-- A send effect appears in a broadcast exactly for the members other
than the sender whose socket is open, and always carries the received
frame unchanged. -/
theorem mem_broadcast_send (room : List Relay.Conn) (ws : Relay.Conn)
    (message : Relay.Msg) (c : Relay.Conn) (p : Relay.Msg) :
    Relay.Action.send c p ∈ Relay.broadcast room ws message ↔
      (c ∈ room ∧ c ≠ ws ∧ c.readyState = Relay.OPEN ∧ p = message) := by
  simp only [Relay.broadcast, List.mem_filterMap]
  constructor
  · rintro ⟨a, ha, hf⟩
    by_cases h : a ≠ ws ∧ a.readyState = Relay.OPEN
    · rw [if_pos h] at hf
      simp only [Option.some.injEq, Relay.Action.send.injEq] at hf
      obtain ⟨rfl, rfl⟩ := hf
      exact ⟨ha, h.1, h.2, rfl⟩
    · rw [if_neg h] at hf
      exact Option.noConfusion hf
  · rintro ⟨hc, hne, hopen, rfl⟩
    refine ⟨c, hc, ?_⟩
    rw [if_pos ⟨hne, hopen⟩]

/-- Every effect a broadcast emits is a send. -/
theorem broadcast_only_sends (room : List Relay.Conn) (ws : Relay.Conn)
    (message : Relay.Msg) (a : Relay.Action)
    (ha : a ∈ Relay.broadcast room ws message) : Relay.isClose a = false := by
  simp only [Relay.broadcast, List.mem_filterMap] at ha
  obtain ⟨x, _, hf⟩ := ha
  by_cases h : x ≠ ws ∧ x.readyState = Relay.OPEN
  · rw [if_pos h] at hf
    obtain rfl := Option.some.inj hf
    rfl
  · rw [if_neg h] at hf
    exact Option.noConfusion hf

end BroadcastLemmas

/-- C1: for every room and every frame the relay receives from a member
connection, the relay forwards that frame unmodified to every other
member whose socket is open and never sends it back to the sender: a
send of payload p to connection c is emitted exactly when c is a room
member distinct from the sender with readyState OPEN and p is the
received frame byte-for-byte.  Instantiating c with the sender makes the
right-hand side false, so no frame is echoed to its sender. -/
theorem C1_relay_forwards_to_other_open_members (room : List Relay.Conn)
    (ws : Relay.Conn) (message : Relay.Msg) (c : Relay.Conn) (p : Relay.Msg) :
    Relay.Action.send c p ∈ Relay.broadcast room ws message ↔
      (c ∈ room ∧ c ≠ ws ∧ c.readyState = Relay.OPEN ∧ p = message) :=
  mem_broadcast_send room ws message c p

/-- C7: per-recipient send failures are isolated.  Whatever set of
recipients the failure oracle marks as lost, a connection receives the
frame exactly when it is an open room member other than the sender whose
own send is not the failing one, so a failure at one recipient never
prevents delivery to the remaining recipients; and the fan-out loop
emits no close effect, so in particular it never closes the sender
connection. -/
theorem C7_send_failures_isolated (room : List Relay.Conn) (ws : Relay.Conn)
    (message : Relay.Msg) (fail : Relay.Conn → Bool) :
    (∀ c, c ∈ Relay.delivered fail room ws message ↔
      (c ∈ room ∧ c ≠ ws ∧ c.readyState = Relay.OPEN ∧ fail c = false)) ∧
    (Relay.broadcast room ws message).filter Relay.isClose = [] := by
  constructor
  · intro c
    simp only [Relay.delivered, List.mem_filterMap]
    constructor
    · rintro ⟨a, ha, hf⟩
      cases a with
      | send c' q =>
        dsimp only at hf
        by_cases h : fail c'
        · rw [if_pos h] at hf
          exact Option.noConfusion hf
        · rw [if_neg h] at hf
          obtain rfl := Option.some.inj hf
          obtain ⟨h1, h2, h3, _⟩ := (mem_broadcast_send room ws message c' q).mp ha
          exact ⟨h1, h2, h3, by simp [h]⟩
      | close t => exact Option.noConfusion hf
    · rintro ⟨h1, h2, h3, h4⟩
      refine ⟨Relay.Action.send c message,
        (mem_broadcast_send room ws message c message).mpr ⟨h1, h2, h3, rfl⟩, ?_⟩
      dsimp only
      simp [h4]
  · rw [List.filter_eq_nil_iff]
    intro a ha
    rw [broadcast_only_sends room ws message a ha]
    exact Bool.false_ne_true

section RoomNameLemmas

/-- The first piece of a slash split is the run of characters before the
first slash. -/
theorem splitSlash_head (cs : List Char) :
    (Relay.splitSlash cs).head? = some (cs.takeWhile (fun c => c ≠ '/')) := by
  induction cs with
  | nil => rfl
  | cons c cs ih =>
    by_cases h : c = '/'
    · subst h
      simp [Relay.splitSlash, List.takeWhile_cons]
    · rw [Relay.splitSlash]
      rw [if_neg h]
      cases hs : Relay.splitSlash cs with
      | nil => rw [hs] at ih; exact Option.noConfusion ih
      | cons p ps =>
        rw [hs] at ih
        obtain rfl := Option.some.inj ih
        simp [List.takeWhile_cons, h]

end RoomNameLemmas

/-- C6: for every accepted connection the relay resolves the room id as
the path segment after the leading slash of the request URL, with the
fixed default room id when that segment is empty or absent: on every
request URL beginning with a slash, the code resolution (index 1 of the
slash split, with the falsy fallback) agrees with the specification
resolution, and a URL whose path is just the slash resolves to the
default room id. -/
theorem C6_room_resolution :
    (∀ url : List Char, url.head? = some '/' →
      Relay.roomNameOf url = Relay.specRoomName url) ∧
    Relay.roomNameOf ['/'] = Relay.defaultRoom := by
  constructor
  · intro url h
    cases url with
    | nil => exact Option.noConfusion h
    | cons c rest =>
      obtain rfl : c = '/' := Option.some.inj h
      have h1 : Relay.splitSlash ('/' :: rest) = [] :: Relay.splitSlash rest := by
        rw [Relay.splitSlash, if_pos rfl]
      rw [Relay.roomNameOf, h1]
      have h2 : ([] :: Relay.splitSlash rest).get? 1 = (Relay.splitSlash rest).head? := by
        cases hs : Relay.splitSlash rest with
        | nil => rfl
        | cons p ps => rfl
      rw [h2, splitSlash_head rest]
      rfl
  · rfl

/-- Witness for C6 at the concrete request URL /myroom. -/
theorem C6_room_resolution_witness :
    Relay.roomNameOf "/myroom".data = Relay.specRoomName "/myroom".data :=
  C6_room_resolution.1 "/myroom".data (by decide)

section RegistryLemmas

/-- A room id is bound in a registry exactly when it occurs among the
keys. -/
theorem lookupRoom_eq_none_iff (reg : Relay.Registry) (rid : Relay.RoomId) :
    Relay.lookupRoom reg rid = none ↔ rid ∉ reg.map Prod.fst := by
  induction reg with
  | nil => simp [Relay.lookupRoom]
  | cons p rest ih =>
    obtain ⟨r, m⟩ := p
    by_cases h : r = rid
    · subst h
      simp [Relay.lookupRoom]
    · simp only [Relay.lookupRoom, if_neg h, List.map_cons, List.mem_cons]
      rw [ih]
      constructor
      · rintro hn (h1 | h2)
        · exact h h1.symm
        · exact hn h2
      · intro hn h2
        exact hn (Or.inr h2)

/-- Looking up a freshly appended key finds its entry. -/
theorem lookupRoom_append (reg : Relay.Registry) (rid : Relay.RoomId)
    (m : List Relay.Conn) (h : Relay.lookupRoom reg rid = none) :
    Relay.lookupRoom (reg ++ [(rid, m)]) rid = some m := by
  induction reg with
  | nil => simp [Relay.lookupRoom]
  | cons p rest ih =>
    obtain ⟨r, m'⟩ := p
    rw [Relay.lookupRoom] at h
    by_cases hr : r = rid
    · rw [if_pos hr] at h
      exact Option.noConfusion h
    · rw [if_neg hr] at h
      simpa [Relay.lookupRoom, hr] using ih h

/-- Adding a member touches no registry entry with an absent key. -/
theorem addToRoom_of_absent (reg : Relay.Registry) (rid : Relay.RoomId)
    (ws : Relay.Conn) (h : Relay.lookupRoom reg rid = none) :
    Relay.addToRoom reg rid ws = reg := by
  induction reg with
  | nil => rfl
  | cons p rest ih =>
    obtain ⟨r, m⟩ := p
    rw [Relay.lookupRoom] at h
    by_cases hr : r = rid
    · rw [if_pos hr] at h
      exact Option.noConfusion h
    · rw [if_neg hr] at h
      rw [Relay.addToRoom, if_neg hr, ih h]

/-- Adding a member to a registry extended by its fresh room updates
only that final entry. -/
theorem addToRoom_append (reg : Relay.Registry) (rid : Relay.RoomId)
    (ws : Relay.Conn) (m : List Relay.Conn) (h : Relay.lookupRoom reg rid = none) :
    Relay.addToRoom (reg ++ [(rid, m)]) rid ws
      = reg ++ [(rid, if ws ∈ m then m else m ++ [ws])] := by
  induction reg with
  | nil => simp [Relay.addToRoom]
  | cons p rest ih =>
    obtain ⟨r, m'⟩ := p
    rw [Relay.lookupRoom] at h
    by_cases hr : r = rid
    · rw [if_pos hr] at h
      exact Option.noConfusion h
    · rw [if_neg hr] at h
      simp only [List.cons_append, Relay.addToRoom, if_neg hr, List.append_eq]
      rw [ih h]

end RegistryLemmas

section RegistryInvariantLemmas

/-- Adding a member keeps every member set non-empty. -/
theorem noEmpty_addToRoom (reg : Relay.Registry) (rid : Relay.RoomId)
    (ws : Relay.Conn) (h : Relay.NoEmpty reg) :
    Relay.NoEmpty (Relay.addToRoom reg rid ws) := by
  induction reg with
  | nil => exact h
  | cons p rest ih =>
    obtain ⟨r, m⟩ := p
    rw [Relay.addToRoom]
    by_cases hr : r = rid
    · rw [if_pos hr]
      intro q hq
      rcases List.mem_cons.mp hq with hq | hq
      · subst hq
        by_cases hm : ws ∈ m
        · simpa [hm] using h (r, m) (List.mem_cons_self _ _)
        · simp [hm]
      · exact h q (List.mem_cons_of_mem _ hq)
    · rw [if_neg hr]
      intro q hq
      rcases List.mem_cons.mp hq with hq | hq
      · subst hq
        exact h (r, m) (List.mem_cons_self _ _)
      · exact ih (fun x hx => h x (List.mem_cons_of_mem _ hx)) q hq

/-- A join keeps every member set non-empty. -/
theorem noEmpty_join (reg : Relay.Registry) (rid : Relay.RoomId)
    (ws : Relay.Conn) (h : Relay.NoEmpty reg) :
    Relay.NoEmpty (Relay.join reg rid ws) := by
  rw [Relay.join, Relay.ensureRoom]
  by_cases hr : Relay.hasRoom reg rid
  · rw [if_pos hr]
    exact noEmpty_addToRoom reg rid ws h
  · rw [if_neg hr]
    have hn : Relay.lookupRoom reg rid = none := by
      rw [Relay.hasRoom] at hr
      exact Option.not_isSome_iff_eq_none.mp hr
    rw [addToRoom_append reg rid ws [] hn]
    intro q hq
    rcases List.mem_append.mp hq with hq | hq
    · exact h q hq
    · rcases List.mem_singleton.mp hq with rfl
      simp

/-- A leave keeps every member set non-empty: an emptied set takes its
room entry with it. -/
theorem noEmpty_leave (reg : Relay.Registry) (rid : Relay.RoomId)
    (ws : Relay.Conn) (h : Relay.NoEmpty reg) :
    Relay.NoEmpty (Relay.leave reg rid ws) := by
  induction reg with
  | nil => exact h
  | cons p rest ih =>
    obtain ⟨r, m⟩ := p
    have hrest : Relay.NoEmpty rest := fun x hx => h x (List.mem_cons_of_mem _ hx)
    rw [Relay.leave]
    by_cases hr : r = rid
    · rw [if_pos hr]
      by_cases he : m.erase ws = []
      · rw [if_pos he]
        exact hrest
      · rw [if_neg he]
        intro q hq
        rcases List.mem_cons.mp hq with hq | hq
        · subst hq
          exact he
        · exact hrest q hq
    · rw [if_neg hr]
      intro q hq
      rcases List.mem_cons.mp hq with hq | hq
      · subst hq
        exact h (r, m) (List.mem_cons_self _ _)
      · exact ih hrest q hq

/-- Adding a member never changes the key sequence of the registry. -/
theorem keys_addToRoom (reg : Relay.Registry) (rid : Relay.RoomId)
    (ws : Relay.Conn) :
    (Relay.addToRoom reg rid ws).map Prod.fst = reg.map Prod.fst := by
  induction reg with
  | nil => rfl
  | cons p rest ih =>
    obtain ⟨r, m⟩ := p
    rw [Relay.addToRoom]
    by_cases hr : r = rid
    · rw [if_pos hr]
      rfl
    · rw [if_neg hr]
      simp only [List.map_cons, ih]

/-- A join keeps the registry keys unique. -/
theorem uniqKeys_join (reg : Relay.Registry) (rid : Relay.RoomId)
    (ws : Relay.Conn) (h : Relay.UniqKeys reg) :
    Relay.UniqKeys (Relay.join reg rid ws) := by
  rw [Relay.join, Relay.ensureRoom]
  by_cases hr : Relay.hasRoom reg rid
  · rw [if_pos hr]
    rw [Relay.UniqKeys, keys_addToRoom]
    exact h
  · rw [if_neg hr]
    have hn : Relay.lookupRoom reg rid = none := by
      rw [Relay.hasRoom] at hr
      exact Option.not_isSome_iff_eq_none.mp hr
    rw [Relay.UniqKeys, keys_addToRoom]
    have hmem : rid ∉ reg.map Prod.fst := (lookupRoom_eq_none_iff reg rid).mp hn
    simp only [List.map_append, List.map_cons, List.map_nil]
    exact List.Nodup.append h (List.nodup_singleton rid)
      (by simpa [List.disjoint_singleton] using hmem)

/-- The keys of the registry after a leave form a sublist of the keys
before it. -/
theorem keys_leave_sublist (reg : Relay.Registry) (rid : Relay.RoomId)
    (ws : Relay.Conn) :
    List.Sublist ((Relay.leave reg rid ws).map Prod.fst) (reg.map Prod.fst) := by
  induction reg with
  | nil => exact List.Sublist.refl _
  | cons p rest ih =>
    obtain ⟨r, m⟩ := p
    rw [Relay.leave]
    by_cases hr : r = rid
    · rw [if_pos hr]
      by_cases he : m.erase ws = []
      · rw [if_pos he]
        exact (List.Sublist.refl _).cons _
      · rw [if_neg he]
        exact List.Sublist.refl _
    · rw [if_neg hr]
      exact ih.cons₂ _

/-- A leave keeps the registry keys unique. -/
theorem uniqKeys_leave (reg : Relay.Registry) (rid : Relay.RoomId)
    (ws : Relay.Conn) (h : Relay.UniqKeys reg) :
    Relay.UniqKeys (Relay.leave reg rid ws) :=
  h.sublist (keys_leave_sublist reg rid ws)

/-- Both registry invariants hold along every run of join and leave
events. -/
theorem inv_run (evs : List Relay.Event) :
    Relay.NoEmpty (Relay.run evs) ∧ Relay.UniqKeys (Relay.run evs) := by
  rw [Relay.run]
  have main : ∀ (evs : List Relay.Event) (reg : Relay.Registry),
      Relay.NoEmpty reg → Relay.UniqKeys reg →
      Relay.NoEmpty (evs.foldl Relay.step reg) ∧
        Relay.UniqKeys (evs.foldl Relay.step reg) := by
    intro evs
    induction evs with
    | nil => exact fun reg h1 h2 => ⟨h1, h2⟩
    | cons e rest ih =>
      intro reg h1 h2
      rw [List.foldl_cons]
      cases e with
      | join rid ws =>
        exact ih _ (noEmpty_join reg rid ws h1) (uniqKeys_join reg rid ws h2)
      | leave rid ws =>
        exact ih _ (noEmpty_leave reg rid ws h1) (uniqKeys_leave reg rid ws h2)
  exact main evs [] (fun p hp => absurd hp (List.not_mem_nil p)) List.nodup_nil

/-- When the sole member of a room leaves a uniquely keyed registry, the
room entry disappears. -/
theorem leave_last_member (reg : Relay.Registry) (rid : Relay.RoomId)
    (ws : Relay.Conn) (hu : Relay.UniqKeys reg)
    (h : Relay.lookupRoom reg rid = some [ws]) :
    Relay.lookupRoom (Relay.leave reg rid ws) rid = none := by
  induction reg with
  | nil => exact Option.noConfusion h
  | cons p rest ih =>
    obtain ⟨r, m⟩ := p
    rw [Relay.UniqKeys, List.map_cons, List.nodup_cons] at hu
    rw [Relay.lookupRoom] at h
    rw [Relay.leave]
    by_cases hr : r = rid
    · rw [if_pos hr] at h ⊢
      obtain rfl := Option.some.inj h
      rw [List.erase_cons_head]
      rw [if_pos rfl]
      exact (lookupRoom_eq_none_iff rest rid).mpr (hr ▸ hu.1)
    · rw [if_neg hr] at h ⊢
      rw [Relay.lookupRoom, if_neg hr]
      exact ih hu.2 h

end RegistryInvariantLemmas

/-- C2: after any sequence of joins and leaves starting from the empty
registry, no room entry has an empty member set; when the last member of
a room leaves, the room entry is removed from the registry; and a join
under a room id absent from the registry first creates a fresh room
entry with the empty member set and only then adds the connection,
leaving exactly that one member. -/
theorem C2_no_empty_room_persists :
    (∀ evs : List Relay.Event, Relay.NoEmpty (Relay.run evs)) ∧
    (∀ (evs : List Relay.Event) (rid : Relay.RoomId) (ws : Relay.Conn),
      Relay.lookupRoom (Relay.run evs) rid = some [ws] →
      Relay.lookupRoom (Relay.leave (Relay.run evs) rid ws) rid = none) ∧
    (∀ (reg : Relay.Registry) (rid : Relay.RoomId) (ws : Relay.Conn),
      Relay.lookupRoom reg rid = none →
      Relay.lookupRoom (Relay.ensureRoom reg rid) rid = some [] ∧
      Relay.lookupRoom (Relay.join reg rid ws) rid = some [ws]) := by
  refine ⟨fun evs => (inv_run evs).1, ?_, ?_⟩
  · intro evs rid ws h
    exact leave_last_member (Relay.run evs) rid ws (inv_run evs).2 h
  · intro reg rid ws h
    have hr : ¬ Relay.hasRoom reg rid = true := by
      rw [Relay.hasRoom, h]
      exact Bool.false_ne_true
    constructor
    · rw [Relay.ensureRoom, if_neg hr]
      exact lookupRoom_append reg rid [] h
    · rw [Relay.join, Relay.ensureRoom, if_neg hr, addToRoom_append reg rid ws [] h]
      simpa using lookupRoom_append reg rid [ws] h

/-- Witness for C2 at a one-event run and a concrete fresh join. -/
theorem C2_no_empty_room_persists_witness :
    Relay.NoEmpty (Relay.run [Relay.Event.join "r".data ⟨0, 1⟩]) ∧
    Relay.lookupRoom
        (Relay.leave (Relay.run [Relay.Event.join "r".data ⟨0, 1⟩]) "r".data ⟨0, 1⟩)
        "r".data = none ∧
    Relay.lookupRoom (Relay.ensureRoom [] "r".data) "r".data = some [] :=
  ⟨C2_no_empty_room_persists.1 [Relay.Event.join "r".data ⟨0, 1⟩],
   C2_no_empty_room_persists.2.1 [Relay.Event.join "r".data ⟨0, 1⟩] "r".data ⟨0, 1⟩
     (by decide),
   (C2_no_empty_room_persists.2.2 [] "r".data ⟨0, 1⟩ rfl).1⟩

/-- C4: the store update prepends the new change and truncates, so the
store never holds more than 10 entries and reads back newest-first: in
general the updated store is the new change followed by the first nine
previous entries, and concretely recording the changes numbered 1
through 11 in order into the empty store reads back as the changes 11
down to 2. -/
theorem C4_store_bounded_newest_first :
    (∀ (c : Client.Change) (prev : List Client.Change),
      (Client.record c prev).length ≤ 10 ∧
      Client.allChanges (Client.record c prev) = c :: prev.take 9) ∧
    Client.allChanges
        ((List.range' 1 11).foldl (fun st i => Client.record (Client.mkNumberedChange i) st) [])
      = [Client.mkNumberedChange 11, Client.mkNumberedChange 10,
         Client.mkNumberedChange 9, Client.mkNumberedChange 8,
         Client.mkNumberedChange 7, Client.mkNumberedChange 6,
         Client.mkNumberedChange 5, Client.mkNumberedChange 4,
         Client.mkNumberedChange 3, Client.mkNumberedChange 2] := by
  constructor
  · intro c prev
    constructor
    · rw [Client.record]
      simp only [List.length_take]
      omega
    · rfl
  · rfl

/-- C5: submission with a blank editing surface, or with no initialized
view, is a no-op: the handler returns the state unchanged, so the store,
the editor content and every other local field are untouched, and being
a total function of the state it raises nothing (the source returns at
a guard before any throwing operation). -/
theorem C5_submit_blank_noop (now : Nat) (s : Client.ClientState)
    (h : s.view = none ∨
      ∃ d, s.view = some d ∧ JsStr.jsTrim d.textContent.data = []) :
    Client.handleSubmitChange now s = s := by
  rcases h with h | ⟨d, hd, hblank⟩
  · rw [Client.handleSubmitChange, h]
  · rw [Client.handleSubmitChange, hd]
    cases hc : s.hasContent with
    | false => rfl
    | true =>
      simp only [Bool.not_true, Bool.false_eq_true, if_false]
      rw [if_pos hblank]

/-- Witness for C5 at a concrete blank editor state. -/
theorem C5_submit_blank_noop_witness :
    Client.handleSubmitChange 7 Client.blankState = Client.blankState :=
  C5_submit_blank_noop 7 Client.blankState (Or.inr ⟨⟨[""]⟩, rfl, by decide⟩)

section SubmitLemmas

/-- When the view is initialized, the content flag is set and the
trimmed content is non-empty, a submission performs the full effect:
record the built change, clear the editor to the single empty paragraph,
clear the content flag, show the confirmation and announce the change. -/
theorem submit_success_eq (now : Nat) (s : Client.ClientState) (d : Client.Doc)
    (hv : s.view = some d) (hc : s.hasContent = true)
    (hnb : JsStr.jsTrim d.textContent.data ≠ []) :
    Client.handleSubmitChange now s =
      { s with
        changes := Client.record (Client.submittedChange now s d.textContent) s.changes
        view := some Client.emptyDoc
        hasContent := false
        showConfirmation := true
        lastChange := some (Client.announcedChange now s d.textContent) } := by
  rw [Client.handleSubmitChange, hv, hc]
  simp only [Bool.not_true, Bool.false_eq_true, if_false]
  rw [if_neg hnb]

end SubmitLemmas

/-- C3: submitting while the view is initialized, the content flag
tracks the document text (the invariant dispatchTransaction maintains)
and the plain-text content reads Hello world leaves the first store
entry with content Hello world, the editor cleared to the single empty
paragraph, the content state EMPTY and the change announced on the
awareness lastChange field. -/
theorem C3_submit_hello_world (now : Nat) (s : Client.ClientState) (d : Client.Doc)
    (hview : s.view = some d) (htrack : Client.TracksContent s)
    (hcontent : d.textContent = "Hello world") :
    ((Client.handleSubmitChange now s).changes.head?.map Client.Change.content
      = some "Hello world") ∧
    (Client.handleSubmitChange now s).view = some Client.emptyDoc ∧
    Client.emptyDoc.blocks = [""] ∧
    (Client.handleSubmitChange now s).hasContent = false ∧
    ((Client.handleSubmitChange now s).lastChange.map Client.AwarenessChange.content
      = some "Hello world") := by
  have hc : s.hasContent = true := by
    rw [htrack d hview, hcontent]
    decide
  have hnb : JsStr.jsTrim d.textContent.data ≠ [] := by
    rw [hcontent]
    decide
  rw [submit_success_eq now s d hview hc hnb]
  refine ⟨?_, rfl, rfl, rfl, ?_⟩
  · simp [Client.record, Client.submittedChange, hcontent]
  · simp [Client.announcedChange, Client.submittedChange, hcontent]

/-- Witness for C3 at the concrete Hello world editor state. -/
theorem C3_submit_hello_world_witness :
    ((Client.handleSubmitChange 1000 Client.helloState).changes.head?.map
        Client.Change.content = some "Hello world") ∧
    (Client.handleSubmitChange 1000 Client.helloState).view = some Client.emptyDoc ∧
    Client.emptyDoc.blocks = [""] ∧
    (Client.handleSubmitChange 1000 Client.helloState).hasContent = false ∧
    ((Client.handleSubmitChange 1000 Client.helloState).lastChange.map
        Client.AwarenessChange.content = some "Hello world") :=
  C3_submit_hello_world 1000 Client.helloState ⟨["Hello world"]⟩ rfl
    (fun d hd => by
      injection hd with h
      subst h
      decide)
    rfl

section SubmitIdLemmas

/-- A submission that changed the state went through the success branch:
the view was initialized, the content flag was set and the trimmed
content was non-empty. -/
theorem submit_changed_success (now : Nat) (s : Client.ClientState)
    (h : Client.handleSubmitChange now s ≠ s) :
    ∃ d, s.view = some d ∧ s.hasContent = true ∧
      JsStr.jsTrim d.textContent.data ≠ [] := by
  cases hv : s.view with
  | none => exact absurd (by rw [Client.handleSubmitChange, hv]) h
  | some d =>
    by_cases hc : s.hasContent = true
    · by_cases hnb : JsStr.jsTrim d.textContent.data = []
      · refine absurd ?_ h
        rw [Client.handleSubmitChange, hv, hc]
        simp only [Bool.not_true, Bool.false_eq_true, if_false]
        rw [if_pos hnb]
      · exact ⟨d, rfl, hc, hnb⟩
    · refine absurd ?_ h
      have hcf : s.hasContent = false := by
        cases hb : s.hasContent
        · rfl
        · exact absurd hb hc
      rw [Client.handleSubmitChange, hv, hcf]
      rfl

end SubmitIdLemmas

/-- The change a state-changing submission records carries the id built
from the clock reading: the decimal rendering of the timestamp. -/
theorem submit_head_id (now : Nat) (s : Client.ClientState)
    (h : Client.handleSubmitChange now s ≠ s) :
    (Client.handleSubmitChange now s).changes.head?.map Client.Change.id
      = some (Client.jsNatToString now) := by
  obtain ⟨d, hv, hc, hnb⟩ := submit_changed_success now s h
  rw [submit_success_eq now s d hv hc hnb]
  simp [Client.record, Client.submittedChange]

section DecimalLemmas

/-- The fueled decimal rendering agrees with the base-10 digit list of
the number, most significant digit first, whenever the fuel suffices. -/
theorem decCharsAux_eq_digits (fuel : Nat) :
    ∀ n, n ≤ fuel →
      Client.decCharsAux fuel n = ((Nat.digits 10 n).map Nat.digitChar).reverse := by
  induction fuel with
  | zero =>
    intro n hn
    obtain rfl : n = 0 := Nat.le_zero.mp hn
    simp [Client.decCharsAux]
  | succ fuel ih =>
    intro n hn
    by_cases h0 : n = 0
    · subst h0
      simp [Client.decCharsAux]
    · simp only [Client.decCharsAux]
      rw [if_neg h0]
      have hdiv : n / 10 ≤ fuel := by
        have := Nat.div_lt_self (Nat.pos_of_ne_zero h0) (by norm_num : 1 < 10)
        omega
      rw [ih (n / 10) hdiv]
      rw [Nat.digits_def' (by norm_num : (1 : Nat) < 10) (Nat.pos_of_ne_zero h0)]
      simp

/-- The decimal rendering in terms of the digit list. -/
theorem decChars_eq_digits (n : Nat) :
    Client.decChars n
      = if n = 0 then ['0'] else ((Nat.digits 10 n).map Nat.digitChar).reverse := by
  rw [Client.decChars]
  by_cases h0 : n = 0
  · rw [if_pos h0, if_pos h0]
  · rw [if_neg h0, if_neg h0, decCharsAux_eq_digits n n (Nat.le_refl n)]

/-- The digit character map is injective on single digits. -/
theorem digitChar_injOn :
    ∀ a < 10, ∀ b < 10, Nat.digitChar a = Nat.digitChar b → a = b := by
  decide

/-- The digit character map is injective on digit lists. -/
theorem map_digitChar_inj :
    ∀ l1 l2 : List Nat, (∀ d ∈ l1, d < 10) → (∀ d ∈ l2, d < 10) →
      l1.map Nat.digitChar = l2.map Nat.digitChar → l1 = l2 := by
  intro l1
  induction l1 with
  | nil =>
    intro l2 _ _ h
    cases l2 with
    | nil => rfl
    | cons b t => exact absurd h (by simp)
  | cons a t ih =>
    intro l2 h1 h2 h
    cases l2 with
    | nil => exact absurd h (by simp)
    | cons b t2 =>
      simp only [List.map_cons, List.cons.injEq] at h
      have hab : a = b :=
        digitChar_injOn a (h1 a (List.mem_cons_self _ _))
          b (h2 b (List.mem_cons_self _ _)) h.1
      rw [hab,
        ih t2 (fun d hd => h1 d (List.mem_cons_of_mem _ hd))
          (fun d hd => h2 d (List.mem_cons_of_mem _ hd)) h.2]

/-- Two numbers with the same decimal rendering are equal. -/
theorem decChars_inj (m n : Nat) (h : Client.decChars m = Client.decChars n) :
    m = n := by
  rw [decChars_eq_digits m, decChars_eq_digits n] at h
  by_cases hm : m = 0 <;> by_cases hn : n = 0
  · omega
  · rw [if_pos hm, if_neg hn] at h
    have h2 : (Nat.digits 10 n).map Nat.digitChar = ['0'] := by
      have := congrArg List.reverse h
      simpa using this.symm
    have h3 : Nat.digits 10 n = [0] :=
      map_digitChar_inj (Nat.digits 10 n) [0]
        (fun d hd => Nat.digits_lt_base (by norm_num) hd)
        (fun d hd => by rcases List.mem_singleton.mp hd with rfl; norm_num)
        (by rw [h2]; rfl)
    have h4 := Nat.ofDigits_digits 10 n
    rw [h3] at h4
    simp [Nat.ofDigits] at h4
    omega
  · rw [if_neg hm, if_pos hn] at h
    have h2 : (Nat.digits 10 m).map Nat.digitChar = ['0'] := by
      have := congrArg List.reverse h
      simpa using this
    have h3 : Nat.digits 10 m = [0] :=
      map_digitChar_inj (Nat.digits 10 m) [0]
        (fun d hd => Nat.digits_lt_base (by norm_num) hd)
        (fun d hd => by rcases List.mem_singleton.mp hd with rfl; norm_num)
        (by rw [h2]; rfl)
    have h4 := Nat.ofDigits_digits 10 m
    rw [h3] at h4
    simp [Nat.ofDigits] at h4
    omega
  · rw [if_neg hm, if_neg hn] at h
    have h2 := List.reverse_injective h
    have h3 : Nat.digits 10 m = Nat.digits 10 n :=
      map_digitChar_inj _ _
        (fun d hd => Nat.digits_lt_base (by norm_num) hd)
        (fun d hd => Nat.digits_lt_base (by norm_num) hd) h2
    calc m = Nat.ofDigits 10 (Nat.digits 10 m) := (Nat.ofDigits_digits 10 m).symm
    _ = Nat.ofDigits 10 (Nat.digits 10 n) := by rw [h3]
    _ = n := Nat.ofDigits_digits 10 n

/-- The embedded Date.now().toString() is injective. -/
theorem jsNatToString_inj (m n : Nat)
    (h : Client.jsNatToString m = Client.jsNatToString n) : m = n :=
  decChars_inj m n (congrArg String.data h)

end DecimalLemmas

/-- C8 counterexample: two successful submissions within one session
whose clock readings fall in the same millisecond construct Changes
sharing the id 1000, so the ids of two successfully submitted Changes
are not always distinct. -/
theorem C8_counterexample_same_millisecond :
    (Client.handleSubmitChange 1000 Client.helloState).changes.length = 1 ∧
    (Client.handleSubmitChange 1000 Client.helloState2).changes.length = 2 ∧
    (Client.handleSubmitChange 1000 Client.helloState2).changes.map Client.Change.id
      = ["1000", "1000"] := by
  decide

/-- C8 amended: each successful submission constructs its Change with id
the decimal rendering of the Date.now() reading, so two successful
submissions whose clock readings differ construct Changes with distinct
ids. -/
theorem C8_distinct_timestamps_distinct_ids (now1 now2 : Nat)
    (s1 s2 : Client.ClientState)
    (h1 : Client.handleSubmitChange now1 s1 ≠ s1)
    (h2 : Client.handleSubmitChange now2 s2 ≠ s2)
    (hne : now1 ≠ now2) :
    (Client.handleSubmitChange now1 s1).changes.head?.map Client.Change.id ≠
      (Client.handleSubmitChange now2 s2).changes.head?.map Client.Change.id := by
  rw [submit_head_id now1 s1 h1, submit_head_id now2 s2 h2]
  intro heq
  exact hne (jsNatToString_inj now1 now2 (Option.some.inj heq))

/-- Witness for the amended C8 at two concrete distinct milliseconds. -/
theorem C8_distinct_timestamps_distinct_ids_witness :
    (Client.handleSubmitChange 1000 Client.helloState).changes.head?.map
        Client.Change.id ≠
      (Client.handleSubmitChange 1001 Client.helloState).changes.head?.map
        Client.Change.id :=
  C8_distinct_timestamps_distinct_ids 1000 1001 Client.helloState Client.helloState
    (by decide) (by decide) (by decide)

/-- C9: the session teardown is idempotent.  Running the teardown (the
status-effect cleanup followed by the editor-effect cleanup) a second
time after it has already run leaves the session state unchanged and
emits no resource effect at all, in particular no second provider
destroy; the second run only takes null-guarded branches, so nothing in
it can throw, embedded here by teardown being a total function. -/
theorem C9_teardown_idempotent (s : Session.SessionState) :
    Session.teardown (Session.teardown s).1 = ((Session.teardown s).1, []) := by
  obtain ⟨cv, pv⟩ := s
  cases cv <;> cases pv <;> rfl

section TrimLemmas

/-- Dropping a satisfying run leaves all elements satisfying exactly
when the whole list satisfies. -/
theorem forall_mem_dropWhile_iff (p : Char → Bool) (l : List Char) :
    (∀ x ∈ l.dropWhile p, p x = true) ↔ (∀ x ∈ l, p x = true) := by
  induction l with
  | nil => simp
  | cons a t ih =>
    cases hp : p a with
    | true =>
      rw [List.dropWhile_cons_of_pos hp, ih]
      constructor
      · intro h x hx
        rcases List.mem_cons.mp hx with rfl | hx
        · exact hp
        · exact h x hx
      · intro h x hx
        exact h x (List.mem_cons_of_mem _ hx)
    | false =>
      rw [List.dropWhile_cons_of_neg (by simp [hp])]

/-- The head of a non-empty dropWhile result fails the predicate. -/
theorem dropWhile_head_false (p : Char → Bool) (l : List Char) (c : Char)
    (cs : List Char) (h : l.dropWhile p = c :: cs) : p c = false := by
  induction l with
  | nil => exact List.noConfusion h
  | cons a t ih =>
    cases hp : p a with
    | true =>
      rw [List.dropWhile_cons_of_pos hp] at h
      exact ih h
    | false =>
      rw [List.dropWhile_cons_of_neg (by simp [hp])] at h
      injection h with h1 h2
      rw [← h1]
      exact hp

end TrimLemmas

section TrimLemmasTwo

/-- Trimming yields the empty list exactly when every character is
whitespace. -/
theorem jsTrim_eq_nil_iff (l : List Char) :
    JsStr.jsTrim l = [] ↔ ∀ c ∈ l, JsStr.isWs c = true := by
  rw [JsStr.jsTrim, List.reverse_eq_nil_iff, List.dropWhile_eq_nil_iff]
  constructor
  · intro h
    exact (forall_mem_dropWhile_iff JsStr.isWs l).mp
      (fun x hx => h x (List.mem_reverse.mpr hx))
  · intro h x hx
    exact h x ((List.dropWhile_sublist JsStr.isWs).subset (List.mem_reverse.mp hx))

/-- The trimmed list decomposes the leading-trimmed list into itself
followed by the trimmed-away whitespace tail. -/
theorem dropWhile_eq_jsTrim_append (l : List Char) :
    l.dropWhile JsStr.isWs
      = JsStr.jsTrim l
        ++ (((l.dropWhile JsStr.isWs).reverse.takeWhile JsStr.isWs).reverse) := by
  rw [JsStr.jsTrim]
  have h := List.takeWhile_append_dropWhile JsStr.isWs (l.dropWhile JsStr.isWs).reverse
  calc l.dropWhile JsStr.isWs
      = (l.dropWhile JsStr.isWs).reverse.reverse := (List.reverse_reverse _).symm
    _ = ((l.dropWhile JsStr.isWs).reverse.takeWhile JsStr.isWs
          ++ (l.dropWhile JsStr.isWs).reverse.dropWhile JsStr.isWs).reverse := by rw [h]
    _ = _ := by rw [List.reverse_append]

/-- A character heading the trimmed list is not whitespace. -/
theorem jsTrim_head_not_ws (l : List Char) (c : Char)
    (h : (JsStr.jsTrim l).head? = some c) : JsStr.isWs c = false := by
  cases ht : JsStr.jsTrim l with
  | nil => rw [ht] at h; exact Option.noConfusion h
  | cons x xs =>
    rw [ht] at h
    obtain rfl := Option.some.inj h
    have hd := dropWhile_eq_jsTrim_append l
    rw [ht] at hd
    exact dropWhile_head_false JsStr.isWs l x _ (by rw [hd]; rfl)

/-- A character ending the trimmed list is not whitespace. -/
theorem jsTrim_getLast_not_ws (l : List Char) (c : Char)
    (h : (JsStr.jsTrim l).getLast? = some c) : JsStr.isWs c = false := by
  rw [JsStr.jsTrim, List.getLast?_reverse] at h
  cases hd : (l.dropWhile JsStr.isWs).reverse.dropWhile JsStr.isWs with
  | nil => rw [hd] at h; exact Option.noConfusion h
  | cons x xs =>
    rw [hd] at h
    obtain rfl := Option.some.inj h
    exact dropWhile_head_false JsStr.isWs _ x _ hd

end TrimLemmasTwo

/-- C10: the login action invokes the login callback exactly when the
entered name holds at least one non-whitespace character (the trimmed
name is a truthy string); the passed name is the trimmed input; an
all-whitespace input is a no-op; and any name handed to the callback is
non-empty with neither a leading nor a trailing whitespace character. -/
theorem C10_login_trims_and_guards (u : List Char) :
    (LoginForm.loginSubmit u = none ↔ ∀ c ∈ u, JsStr.isWs c = true) ∧
    (∀ v, LoginForm.loginSubmit u = some v →
      v = JsStr.jsTrim u ∧ v ≠ [] ∧
      (∀ c, v.head? = some c → JsStr.isWs c = false) ∧
      (∀ c, v.getLast? = some c → JsStr.isWs c = false)) := by
  constructor
  · rw [← jsTrim_eq_nil_iff]
    rw [LoginForm.loginSubmit]
    by_cases h : JsStr.jsTrim u = []
    · rw [if_pos h]
      simp [h]
    · rw [if_neg h]
      simp [h]
  · intro v hv
    rw [LoginForm.loginSubmit] at hv
    by_cases h : JsStr.jsTrim u = []
    · rw [if_pos h] at hv
      exact Option.noConfusion hv
    · rw [if_neg h] at hv
      obtain rfl := Option.some.inj hv
      exact ⟨rfl, h, fun c hc => jsTrim_head_not_ws u c hc,
        fun c hc => jsTrim_getLast_not_ws u c hc⟩

/-- Witness for C10 at a concrete padded name. -/
theorem C10_login_trims_and_guards_witness :
    "bob".data = JsStr.jsTrim " bob ".data ∧ JsStr.isWs 'b' = false :=
  ⟨((C10_login_trims_and_guards " bob ".data).2 "bob".data (by decide)).1,
   ((C10_login_trims_and_guards " bob ".data).2 "bob".data (by decide)).2.2.1 'b'
     (by decide)⟩
